import Mathlib

/-!
Shallow embedding of the mycandys-carts-analytics statistics service
(src/index.js together with the statisticModel schema in
src/unnamed/part_000), and proofs about its record/query semantics.

The MongoDB collection is modelled as a `List Statistic` in insertion
order; the aggregation pipelines of the three GET handlers and the
document construction of the POST handler are translated directly from
the source.  Store availability is modelled by a Boolean: when the store
is unavailable every awaited driver call throws and the handler's catch
block answers 500, exactly as in the source's try/catch structure.
-/

namespace Carts

/-- A calendar date-time: the value of `new Date()` at the moment the
POST /stats handler runs.  Chronological order is lexicographic on
(year, month, day, hour, minute, second), with hour in 0..23. -/
structure DateTime where
  year : Nat
  month : Nat
  day : Nat
  hour : Nat
  minute : Nat
  second : Nat
deriving DecidableEq, Repr

/-- The six fields of a date-time, most significant first, so that the
chronological order is the lexicographic list order. -/
def DateTime.fields (t : DateTime) : List Nat :=
  [t.year, t.month, t.day, t.hour, t.minute, t.second]

/-- Chronological (true point-in-time) strict order on date-times. -/
def chronLt (a b : DateTime) : Bool :=
  decide (a.fields < b.fields)

/-- Zero-pads a minute or second count to two digits. -/
def pad2 (n : Nat) : String :=
  if n < 10 then "0" ++ toString n else toString n

/-- The string `new Date().toLocaleString()` produces in the Node default
(en-US) locale: "M/D/YYYY, h:mm:ss AM/PM" with a 12-hour clock. -/
def toLocaleString (t : DateTime) : String :=
  let h12 := if t.hour % 12 = 0 then 12 else t.hour % 12
  let ampm := if t.hour < 12 then "AM" else "PM"
  toString t.month ++ "/" ++ toString t.day ++ "/" ++ toString t.year ++ ", " ++
    toString h12 ++ ":" ++ pad2 t.minute ++ ":" ++ pad2 t.second ++ " " ++ ampm

/-- A stored statistic document, after the statisticSchema of
src/unnamed/part_000 (String-timestamp variant, the one index.js writes
to): `url` is optional (a document saved without `calledService` has no
url, which MongoDB groups under null), and `timestamp` holds exactly the
string the POST handler wrote. -/
structure Statistic where
  url : Option String
  timestamp : String
deriving DecidableEq, Repr

/-- The document built by the POST /stats handler:
`new Statistic({ url: calledService, timestamp: new Date().toLocaleString() })`. -/
def mkStat (calledService : Option String) (now : DateTime) : Statistic :=
  { url := calledService, timestamp := toLocaleString now }

/-- An HTTP-level handler outcome: `res.status(s).json(body)` on success,
or `res.status(s).json({ error: msg })` on the 404/500 paths.  The error
constructor carries only the message — an error response transports no
statistic data. -/
inductive ApiResult (α : Type) where
  | ok (status : Nat) (body : α)
  | jsonError (status : Nat) (msg : String)
deriving DecidableEq, Repr

/-- Size of the group of documents whose url equals `u`. -/
def countUrl (u : Option String) (store : List Statistic) : Nat :=
  (store.filter (fun s => s.url == u)).length

/-- The aggregation stage shared by GET /stats/most-called and
GET /stats/endpoint-counts:
`{ $group: { _id: "$url", count: { $sum: 1 } } }` followed by
`{ $project: { url: "$_id", count: 1, _id: 0 } }` — one output row per
distinct url value (first-appearance order; documents without a url group
under null = none), carrying the number of documents in that group. -/
def groupCounts (store : List Statistic) : List (Option String × Nat) :=
  (store.map Statistic.url).dedup.map (fun u => (u, countUrl u store))

/-- Model of `Statistic.findOne().sort({ timestamp: -1 }).limit(1)`: a stored
document whose timestamp is maximal in MongoDB's binary string order
(the lexicographic order on String); `none` (serialized as null) when
the collection is empty.  Among equal timestamps the earliest inserted
document is kept. -/
def findLatest : List Statistic → Option Statistic
  | [] => none
  | s :: rest =>
    match findLatest rest with
    | none => some s
    | some m => if m.timestamp ≤ s.timestamp then some s else some m

/-- The `{ $sort: { count: -1 } }, { $limit: 1 }` tail of the most-called
pipeline: a row of maximal count, `none` when there are no rows.  Among
equal counts the earliest row is kept. -/
def maxByCount : List (Option String × Nat) → Option (Option String × Nat)
  | [] => none
  | p :: rest =>
    match maxByCount rest with
    | none => some p
    | some m => if m.2 ≤ p.2 then some p else some m

/-- GET /stats/latest handler.  When the store can be queried it answers
200 with the found document (null when the collection is empty); when it
cannot, the awaited findOne throws and the catch answers 500.  A read
handler performs no write, so the store comes back unchanged. -/
def getStatsLatest (avail : Bool) (store : List Statistic) :
    ApiResult (Option Statistic) × List Statistic :=
  (if avail then ApiResult.ok 200 (findLatest store)
   else ApiResult.jsonError 500 "Internal Server Error", store)

/-- GET /stats/most-called handler: runs the aggregation; answers 404
"No statistics available" when it yields no row, else 200 with the single
row; 500 when the store cannot be queried. -/
def getMostCalled (avail : Bool) (store : List Statistic) :
    ApiResult (Option String × Nat) × List Statistic :=
  (if avail then
    match maxByCount (groupCounts store) with
    | none => ApiResult.jsonError 404 "No statistics available"
    | some p => ApiResult.ok 200 p
   else ApiResult.jsonError 500 "Internal Server Error", store)

/-- GET /stats/endpoint-counts handler: runs the aggregation; answers 404
"No statistics available" when the row list is empty, else 200 with the
whole row list; 500 when the store cannot be queried. -/
def getEndpointCounts (avail : Bool) (store : List Statistic) :
    ApiResult (List (Option String × Nat)) × List Statistic :=
  (if avail then
    let rows := groupCounts store
    if rows.length = 0 then ApiResult.jsonError 404 "No statistics available"
    else ApiResult.ok 200 rows
   else ApiResult.jsonError 500 "Internal Server Error", store)

/-- POST /stats handler: destructures `calledService` from the body
(absent field gives none), builds the new document with the current
locale-formatted time, saves it (an append to the collection) and answers
201 with the saved document.  When the store cannot accept the write,
`save()` throws, the catch answers 500 and nothing is inserted. -/
def postStats (avail : Bool) (calledService : Option String) (now : DateTime)
    (store : List Statistic) : ApiResult Statistic × List Statistic :=
  if avail then
    let s := mkStat calledService now
    (ApiResult.ok 201 s, store ++ [s])
  else (ApiResult.jsonError 500 "Internal Server Error", store)

/-- Runs a sequence of successful record calls against a store; each call
carries the calledService of its request body and the wall-clock time at
which it ran. -/
def runRecords (calls : List (Option String × DateTime)) (store : List Statistic) :
    List Statistic :=
  calls.foldl (fun st c => (postStats true c.1 c.2 st).2) store

theorem runRecords_eq (calls : List (Option String × DateTime)) (store : List Statistic) :
    runRecords calls store = store ++ calls.map (fun c => mkStat c.1 c.2) := by
  induction calls generalizing store with
  | nil => simp [runRecords]
  | cons c cs ih =>
    have h1 : runRecords (c :: cs) store = runRecords cs (store ++ [mkStat c.1 c.2]) := by
      simp [runRecords, postStats]
    rw [h1, ih, List.append_assoc]
    rfl

theorem findLatest_eq_none (store : List Statistic) :
    findLatest store = none ↔ store = [] := by
  cases store with
  | nil => simp [findLatest]
  | cons s rest =>
    simp only [findLatest]
    cases findLatest rest with
    | none => simp
    | some m =>
      by_cases h : m.timestamp ≤ s.timestamp <;> simp [h]

theorem findLatest_sound (store : List Statistic) (r : Statistic)
    (h : findLatest store = some r) :
    r ∈ store ∧ ∀ s ∈ store, s.timestamp ≤ r.timestamp := by
  induction store generalizing r with
  | nil => simp [findLatest] at h
  | cons a rest ih =>
    simp only [findLatest] at h
    split at h
    next hnone =>
      obtain rfl : a = r := Option.some.inj h
      have hrest : rest = [] := (findLatest_eq_none rest).mp hnone
      subst hrest
      refine ⟨List.mem_singleton_self a, ?_⟩
      intro s hs
      rw [List.mem_singleton] at hs
      subst hs
      exact le_refl _
    next m hsome =>
      obtain ⟨hm, hmax⟩ := ih m hsome
      split at h
      next hc =>
        obtain rfl : a = r := Option.some.inj h
        refine ⟨List.mem_cons_self _ _, ?_⟩
        intro s hs
        rcases List.mem_cons.mp hs with hsa | hsr
        · subst hsa; exact le_refl _
        · exact le_trans (hmax s hsr) hc
      next hc =>
        obtain rfl : m = r := Option.some.inj h
        refine ⟨List.mem_cons_of_mem _ hm, ?_⟩
        intro s hs
        rcases List.mem_cons.mp hs with hsa | hsr
        · subst hsa; exact le_of_not_le hc
        · exact hmax s hsr

theorem maxByCount_eq_none (rows : List (Option String × Nat)) :
    maxByCount rows = none ↔ rows = [] := by
  cases rows with
  | nil => simp [maxByCount]
  | cons p rest =>
    simp only [maxByCount]
    cases maxByCount rest with
    | none => simp
    | some m =>
      by_cases h : m.2 ≤ p.2 <;> simp [h]

theorem maxByCount_sound (rows : List (Option String × Nat))
    (p : Option String × Nat) (h : maxByCount rows = some p) :
    p ∈ rows ∧ ∀ q ∈ rows, q.2 ≤ p.2 := by
  induction rows generalizing p with
  | nil => simp [maxByCount] at h
  | cons a rest ih =>
    simp only [maxByCount] at h
    split at h
    next hnone =>
      obtain rfl : a = p := Option.some.inj h
      have hrest : rest = [] := (maxByCount_eq_none rest).mp hnone
      subst hrest
      refine ⟨List.mem_singleton_self a, ?_⟩
      intro q hq
      rw [List.mem_singleton] at hq
      subst hq
      exact le_refl _
    next m hsome =>
      obtain ⟨hm, hmax⟩ := ih m hsome
      split at h
      next hc =>
        obtain rfl : a = p := Option.some.inj h
        refine ⟨List.mem_cons_self _ _, ?_⟩
        intro q hq
        rcases List.mem_cons.mp hq with hqa | hqr
        · subst hqa; exact le_refl _
        · exact le_trans (hmax q hqr) hc
      next hc =>
        obtain rfl : m = p := Option.some.inj h
        refine ⟨List.mem_cons_of_mem _ hm, ?_⟩
        intro q hq
        rcases List.mem_cons.mp hq with hqa | hqr
        · subst hqa; exact le_of_not_le hc
        · exact hmax q hqr

/-- C2: for every non-empty record set, the GET /stats/latest handler
answers 200 with a stored record whose timestamp (the stored value, in
the string order the sort `{ timestamp: -1 }` uses) is greater than or
equal to every other record's timestamp. -/
theorem latest_returns_max (store : List Statistic) (h : store ≠ []) :
    ∃ r, (getStatsLatest true store).1 = ApiResult.ok 200 (some r) ∧
      r ∈ store ∧ ∀ s ∈ store, s.timestamp ≤ r.timestamp := by
  cases hf : findLatest store with
  | none => exact absurd ((findLatest_eq_none store).mp hf) h
  | some r =>
    obtain ⟨hmem, hmax⟩ := findLatest_sound store r hf
    exact ⟨r, by simp [getStatsLatest, hf], hmem, hmax⟩

/-- Witness for C2 on a concrete two-record store. -/
theorem latest_returns_max_witness :
    ([⟨some "cart", "1/2/2024, 1:00:00 AM"⟩, ⟨some "order", "1/2/2024, 2:00:00 AM"⟩] :
      List Statistic) ≠ [] ∧
    ∃ r, (getStatsLatest true
        [⟨some "cart", "1/2/2024, 1:00:00 AM"⟩, ⟨some "order", "1/2/2024, 2:00:00 AM"⟩]).1 =
        ApiResult.ok 200 (some r) ∧
      r ∈ ([⟨some "cart", "1/2/2024, 1:00:00 AM"⟩, ⟨some "order", "1/2/2024, 2:00:00 AM"⟩] :
        List Statistic) ∧
      ∀ s ∈ ([⟨some "cart", "1/2/2024, 1:00:00 AM"⟩, ⟨some "order", "1/2/2024, 2:00:00 AM"⟩] :
        List Statistic), s.timestamp ≤ r.timestamp :=
  ⟨by decide, latest_returns_max _ (by decide)⟩

theorem filter_of_map {α β : Type} (f : α → β) (p : β → Bool) (l : List α) :
    (l.map f).filter p = (l.filter (fun a => p (f a))).map f := by
  induction l with
  | nil => rfl
  | cons a l ih =>
    cases h : p (f a) <;> simp [List.filter_cons, h, ih]

theorem groupCounts_keys (store : List Statistic) :
    (groupCounts store).map Prod.fst = (store.map Statistic.url).dedup := by
  unfold groupCounts
  rw [List.map_map]
  exact List.map_id _

theorem groupCounts_keys_nodup (store : List Statistic) :
    ((groupCounts store).map Prod.fst).Nodup := by
  rw [groupCounts_keys]
  exact List.nodup_dedup _

theorem mem_groupCounts_of_mem_urls (store : List Statistic) (u : Option String)
    (h : u ∈ store.map Statistic.url) :
    (u, countUrl u store) ∈ groupCounts store :=
  List.mem_map_of_mem _ (List.mem_dedup.mpr h)

theorem groupCounts_entry (store : List Statistic) (p : Option String × Nat)
    (hp : p ∈ groupCounts store) :
    p.1 ∈ store.map Statistic.url ∧ p.2 = countUrl p.1 store := by
  obtain ⟨u, hu, he⟩ := List.mem_map.mp hp
  cases he
  exact ⟨List.mem_dedup.mp hu, rfl⟩

theorem countUrl_pos (store : List Statistic) (u : Option String)
    (h : u ∈ store.map Statistic.url) : 1 ≤ countUrl u store := by
  obtain ⟨s, hs, rfl⟩ := List.mem_map.mp h
  have hmem : s ∈ store.filter (fun t => t.url == s.url) :=
    List.mem_filter.mpr ⟨hs, by simp⟩
  exact List.length_pos.mpr (List.ne_nil_of_mem hmem)

/-- C1: after any sequence of record(e) calls on an empty store, the
endpoint-counts aggregation yields exactly one row per distinct recorded
endpoint, whose count is the number of record calls made with that
endpoint; the row keys contain no duplicate endpoint. -/
theorem endpointCounts_correct (calls : List (Option String × DateTime)) :
    groupCounts (runRecords calls []) =
      (calls.map Prod.fst).dedup.map
        (fun e => (e, (calls.filter (fun c => c.1 == e)).length)) ∧
    ((groupCounts (runRecords calls [])).map Prod.fst).Nodup := by
  refine ⟨?_, groupCounts_keys_nodup _⟩
  rw [runRecords_eq]
  simp only [List.nil_append]
  unfold groupCounts
  have hurls : (calls.map (fun c => mkStat c.1 c.2)).map Statistic.url =
      calls.map Prod.fst := by
    rw [List.map_map]
    rfl
  rw [hurls]
  have hcnt : (fun u => (u, countUrl u (calls.map (fun c => mkStat c.1 c.2)))) =
      (fun e => (e, (calls.filter (fun c => c.1 == e)).length)) := by
    funext u
    unfold countUrl
    rw [filter_of_map, List.length_map]
    rfl
  rw [hcnt]

theorem countUrl_cons (u : Option String) (s : Statistic) (rest : List Statistic) :
    countUrl u (s :: rest) = (if s.url = u then 1 else 0) + countUrl u rest := by
  unfold countUrl
  rw [List.filter_cons]
  by_cases h : s.url = u
  · simp [h]
    omega
  · simp [h]

theorem sum_map_add (keys : List (Option String)) (f g : Option String → Nat) :
    (keys.map (fun u => f u + g u)).sum = (keys.map f).sum + (keys.map g).sum := by
  induction keys with
  | nil => rfl
  | cons k ks ih =>
    simp only [List.map_cons, List.sum_cons, ih]
    omega

theorem sum_map_zero (a : Option String) (keys : List (Option String))
    (h : a ∉ keys) :
    (keys.map (fun u => if a = u then 1 else 0)).sum = 0 := by
  induction keys with
  | nil => rfl
  | cons k ks ih =>
    have hne : a ≠ k := fun he => h (he ▸ List.mem_cons_self k ks)
    simp [hne, ih (fun hm => h (List.mem_cons_of_mem _ hm))]

theorem sum_map_single (a : Option String) (keys : List (Option String))
    (hnd : keys.Nodup) (hmem : a ∈ keys) :
    (keys.map (fun u => if a = u then 1 else 0)).sum = 1 := by
  induction keys with
  | nil => cases hmem
  | cons k ks ih =>
    rw [List.nodup_cons] at hnd
    rcases List.mem_cons.mp hmem with rfl | hmem'
    · simp [sum_map_zero _ _ hnd.1]
    · have hne : a ≠ k := fun he => hnd.1 (he ▸ hmem')
      simp [hne, ih hnd.2 hmem']

theorem sum_countUrl (keys : List (Option String)) (store : List Statistic)
    (hnd : keys.Nodup) (hall : ∀ s ∈ store, s.url ∈ keys) :
    (keys.map (fun u => countUrl u store)).sum = store.length := by
  induction store with
  | nil => simp [countUrl]
  | cons s rest ih =>
    have h1 : keys.map (fun u => countUrl u (s :: rest)) =
        keys.map (fun u => (if s.url = u then 1 else 0) + countUrl u rest) := by
      have hf : (fun u => countUrl u (s :: rest)) =
          (fun u => (if s.url = u then 1 else 0) + countUrl u rest) :=
        funext fun u => countUrl_cons u s rest
      rw [hf]
    rw [h1, sum_map_add,
      sum_map_single s.url keys hnd (hall s (List.mem_cons_self s rest)),
      ih (fun t ht => hall t (List.mem_cons_of_mem _ ht))]
    simp [Nat.add_comm]

/-- C9: the per-endpoint counts of the endpoint-counts aggregation sum to
the total number of stored records: every record is assigned to exactly
one endpoint group. -/
theorem counts_sum_to_length (store : List Statistic) :
    ((groupCounts store).map Prod.snd).sum = store.length := by
  unfold groupCounts
  rw [List.map_map]
  have hf : (Prod.snd ∘ fun u => (u, countUrl u store)) =
      fun u => countUrl u store := rfl
  rw [hf]
  exact sum_countUrl _ _ (List.nodup_dedup _)
    (fun s hs => List.mem_dedup.mpr (List.mem_map_of_mem _ hs))

/-- C4: for every non-empty record set, the GET /stats/most-called handler
answers 200 with a row of the endpoint-counts aggregation whose count is
at least 1 and greater than or equal to every other row's count. -/
theorem mostCalled_max (store : List Statistic) (h : store ≠ []) :
    ∃ p, (getMostCalled true store).1 = ApiResult.ok 200 p ∧
      p ∈ groupCounts store ∧ 1 ≤ p.2 ∧
      ∀ q ∈ groupCounts store, q.2 ≤ p.2 := by
  have hrows : groupCounts store ≠ [] := by
    unfold groupCounts
    simp only [ne_eq, List.map_eq_nil_iff, List.dedup_eq_nil]
    exact h
  cases hm : maxByCount (groupCounts store) with
  | none => exact absurd ((maxByCount_eq_none _).mp hm) hrows
  | some p =>
    obtain ⟨hp, hmax⟩ := maxByCount_sound _ p hm
    have hpos : 1 ≤ p.2 := by
      obtain ⟨hmem, hcnt⟩ := groupCounts_entry store p hp
      rw [hcnt]
      exact countUrl_pos store p.1 hmem
    exact ⟨p, by simp [getMostCalled, hm], hp, hpos, hmax⟩

/-- Witness for C4 on a concrete three-record store. -/
theorem mostCalled_max_witness :
    ([⟨some "checkout", "1"⟩, ⟨some "checkout", "2"⟩, ⟨some "inventory", "3"⟩] :
      List Statistic) ≠ [] ∧
    ∃ p, (getMostCalled true
        [⟨some "checkout", "1"⟩, ⟨some "checkout", "2"⟩, ⟨some "inventory", "3"⟩]).1 =
        ApiResult.ok 200 p ∧
      p ∈ groupCounts
        [⟨some "checkout", "1"⟩, ⟨some "checkout", "2"⟩, ⟨some "inventory", "3"⟩] ∧
      1 ≤ p.2 ∧
      ∀ q ∈ groupCounts
        [⟨some "checkout", "1"⟩, ⟨some "checkout", "2"⟩, ⟨some "inventory", "3"⟩],
        q.2 ≤ p.2 :=
  ⟨by decide, mostCalled_max _ (by decide)⟩

/-- Counterexample for C3: on a store with zero records the
GET /stats/endpoint-counts handler does signal a not-found condition —
it answers 404 with an error message, not 200 with an empty sequence. -/
theorem empty_counts_signals_not_found :
    getEndpointCounts true [] =
      (ApiResult.jsonError 404 "No statistics available", []) ∧
    (getEndpointCounts true []).1 ≠ ApiResult.ok 200 [] := by
  decide

/-- C3 (amended): on a store with zero records, latest() returns an
empty result (200 with null) and mostCalled() returns its empty-result
as a 404 not-found answer; endpointCounts() does not return an empty
sequence but signals the same 404 not-found condition; none of the three
raises a storage error (500). -/
theorem empty_state_behavior :
    getStatsLatest true [] = (ApiResult.ok 200 none, []) ∧
    getMostCalled true [] =
      (ApiResult.jsonError 404 "No statistics available", []) ∧
    getEndpointCounts true [] =
      (ApiResult.jsonError 404 "No statistics available", []) ∧
    (getStatsLatest true []).1 ≠ ApiResult.jsonError 500 "Internal Server Error" ∧
    (getMostCalled true []).1 ≠ ApiResult.jsonError 500 "Internal Server Error" ∧
    (getEndpointCounts true []).1 ≠ ApiResult.jsonError 500 "Internal Server Error" := by
  decide

/-- Concrete creation times used to exhibit the locale-string timestamp
defect: 1 February 2023 and 1 December 2023, both at midnight. -/
def febTime : DateTime := ⟨2023, 2, 1, 0, 0, 0⟩

/-- The later of the two concrete creation times. -/
def decTime : DateTime := ⟨2023, 12, 1, 0, 0, 0⟩

/-- C5: the POST /stats handler stores
`new Date().toLocaleString()` — a locale-formatted string, not a true
chronological value.  At the concrete inputs below the February record's
stored timestamp string compares above the December record's, so the
sort `{ timestamp: -1 }` of GET /stats/latest returns the chronologically
earlier record: the stored field does not sort correctly for
latest-queries. -/
theorem recordedAt_is_locale_string :
    (mkStat (some "cart") febTime).timestamp = "2/1/2023, 12:00:00 AM" ∧
    (mkStat (some "order") decTime).timestamp = "12/1/2023, 12:00:00 AM" ∧
    chronLt febTime decTime = true ∧
    toLocaleString decTime < toLocaleString febTime ∧
    findLatest [mkStat (some "cart") febTime, mkStat (some "order") decTime] =
      some (mkStat (some "cart") febTime) := by
  have hlt : toLocaleString decTime < toLocaleString febTime := by
    rw [String.lt_iff_toList_lt]
    decide
  have hle : toLocaleString decTime ≤ toLocaleString febTime := le_of_lt hlt
  refine ⟨rfl, rfl, by decide, hlt, ?_⟩
  simp only [findLatest, mkStat]
  rw [if_pos hle]

/-- C6: a successful record(endpoint) call appends exactly one new record
to the store, returns that persisted record (with its assigned timestamp)
with status 201, and leaves every previously existing record unchanged;
the response does not depend on the existing records, so none of them is
read. -/
theorem record_appends_one (calledService : Option String) (now : DateTime)
    (store store' : List Statistic) :
    postStats true calledService now store =
      (ApiResult.ok 201 (mkStat calledService now),
        store ++ [mkStat calledService now]) ∧
    (store ++ [mkStat calledService now]).take store.length = store ∧
    (store ++ [mkStat calledService now]).length = store.length + 1 ∧
    (postStats true calledService now store).1 =
      (postStats true calledService now store').1 := by
  refine ⟨by simp [postStats], ?_, by simp, by simp [postStats]⟩
  rw [List.take_left]

/-- C7: when the underlying store cannot be queried, each of the three
read handlers answers only the 500 StorageUnavailable error — a response
that carries no record data at all, hence no partial subset of results —
and a failed record() leaves the store unchanged. -/
theorem storage_unavailable_no_data (store : List Statistic)
    (calledService : Option String) (now : DateTime) :
    getStatsLatest false store =
      (ApiResult.jsonError 500 "Internal Server Error", store) ∧
    getMostCalled false store =
      (ApiResult.jsonError 500 "Internal Server Error", store) ∧
    getEndpointCounts false store =
      (ApiResult.jsonError 500 "Internal Server Error", store) ∧
    postStats false calledService now store =
      (ApiResult.jsonError 500 "Internal Server Error", store) := by
  exact ⟨rfl, rfl, rfl, rfl⟩

/-- C8: read handlers never modify the store, so two consecutive
invocations of the same read query with no intervening record() call run
on the same snapshot and return identical results — in particular
mostCalled() resolves count ties the same way on both calls. -/
theorem reads_idempotent (avail : Bool) (store : List Statistic) :
    (getStatsLatest avail store).2 = store ∧
    (getMostCalled avail store).2 = store ∧
    (getEndpointCounts avail store).2 = store ∧
    (getStatsLatest avail ((getStatsLatest avail store).2)).1 =
      (getStatsLatest avail store).1 ∧
    (getMostCalled avail ((getMostCalled avail store).2)).1 =
      (getMostCalled avail store).1 ∧
    (getEndpointCounts avail ((getEndpointCounts avail store).2)).1 =
      (getEndpointCounts avail store).1 := by
  exact ⟨rfl, rfl, rfl, rfl, rfl, rfl⟩

/-- C10: a POST /stats whose body lacks calledService still succeeds —
a record with an absent (none, serialized null) url is created, appended
and returned with 201 — and such records form their own null-url group in
the aggregation shared by mostCalled() and endpointCounts(): on a store
holding one such record, most-called answers 200 with the null endpoint
and count 1. -/
theorem record_missing_calledService (now : DateTime) (store : List Statistic) :
    postStats true none now store =
      (ApiResult.ok 201 (mkStat none now), store ++ [mkStat none now]) ∧
    (none, countUrl none store + 1) ∈ groupCounts (store ++ [mkStat none now]) ∧
    (getMostCalled true [mkStat none now]).1 = ApiResult.ok 200 (none, 1) := by
  refine ⟨by simp [postStats], ?_, rfl⟩
  have hcnt : countUrl none (store ++ [mkStat none now]) = countUrl none store + 1 := by
    unfold countUrl
    rw [List.filter_append]
    simp [mkStat]
  have hmem : (none : Option String) ∈ (store ++ [mkStat none now]).map Statistic.url := by
    simp [mkStat]
  have hin := mem_groupCounts_of_mem_urls _ none hmem
  rw [hcnt] at hin
  exact hin

end Carts
